import Mathlib

/-!
Shallow embedding of `src/thin-gifler.js` (classes `Animator` and `Decoder`).

The `Animator` scheduler state is the record of mutable instance fields
(`_loopCount`, `_frames`, `_loops`, `_frameIndex`, `_running`, `_lastTime`,
`_delayCompensation`, `disposeFrame`).  Wall-clock reads
(`new Date().valueOf()`) are supplied by an explicit `clock` function indexed
by the number of reads performed so far inside a tick; the `while` loop of
`_enqueueNextFrame` is given explicit fuel because for `loopCount = 0` with
all-zero frame delays it does not terminate.  Calls to `setTimeout` and the
per-frame render callback are recorded as data (a scheduled delay, a list of
rendered frame indices) instead of performing effects.
-/

namespace ThinGifler

/-- The pending `disposeFrame` closure of the default `onFrame` hook:
either `ctx.clearRect(...)` (installed for disposal code 2) or
`ctx.putImageData(saved, 0, 0)` where `saved` was captured while processing
frame `snapIdx` (installed for disposal code 3). -/
inductive DisposeFrame where
  | clearAction : DisposeFrame
  | restoreAction (snapIdx : Nat) : DisposeFrame
deriving Repr, DecidableEq

/-- One decoded GIF frame as the scheduler sees it: its nominal delay in
hundredths of a second and its disposal code. -/
structure Frame where
  delay : Nat
  disposal : Nat
deriving Repr, DecidableEq

/-- The mutable instance fields of `Animator`. -/
structure AnimatorState where
  loopCount : Nat
  frames : List Frame
  loops : Nat
  frameIndex : Nat
  running : Bool
  lastTime : Int
  delayCompensation : Int
  disposeFrame : Option DisposeFrame
deriving Repr, DecidableEq

/-- State of a freshly constructed `Animator`
(`_loops = 0`, `_frameIndex = 0`, `_running = false`). -/
def initAnimator (loopCount : Nat) (frames : List Frame) : AnimatorState :=
  { loopCount := loopCount, frames := frames, loops := 0, frameIndex := 0,
    running := false, lastTime := 0, delayCompensation := 0,
    disposeFrame := none }

/-- Result of a public operation: the new state, the frame indices passed to
the render callback during the operation, and the delays passed to
`setTimeout` during the operation. -/
structure OpResult where
  state : AnimatorState
  rendered : List Nat
  scheduled : List Int
deriving Repr, DecidableEq

/-- Source `animator.start()`: `_lastTime = now; _delayCompensation = 0;
_running = true; setTimeout(_nextFrame, 0)`. -/
def start (now : Int) (s : AnimatorState) : OpResult :=
  { state := { s with lastTime := now, delayCompensation := 0, running := true },
    rendered := [], scheduled := [0] }

/-- Source `animator.stop()`: `_running = false`. -/
def stop (s : AnimatorState) : OpResult :=
  { state := { s with running := false }, rendered := [], scheduled := [] }

/-- Source `animator.reset()`: `_frameIndex = 0; _loops = 0`. -/
def reset (s : AnimatorState) : OpResult :=
  { state := { s with frameIndex := 0, loops := 0 }, rendered := [], scheduled := [] }

/-- Source `animator.running()`. -/
def isRunning (s : AnimatorState) : Bool :=
  s.running

/-- Source `Animator._advanceFrame`: increment `_frameIndex`; at the end of the
animation either stop (when `_loopCount !== 0 && _loopCount === _loops`) or
wrap to frame 0 and count a loop. -/
def advanceFrame (s : AnimatorState) : AnimatorState :=
  let s1 := { s with frameIndex := s.frameIndex + 1 }
  if s1.frameIndex ≥ s1.frames.length then
    if s1.loopCount ≠ 0 ∧ s1.loopCount = s1.loops then
      (stop s1).state
    else
      { s1 with frameIndex := 0, loops := s1.loops + 1 }
  else
    s1

/-- The `while (this._running)` loop of `Animator._enqueueNextFrame`.
`clock k` is the value of `new Date().valueOf()` at the loop's `k`-th
iteration.  Returns `none` on fuel exhaustion (or on an out-of-range frame
access, which in the source would dereference `undefined`); otherwise the
state at loop exit together with `some d` when `setTimeout(_nextFrame, d)`
was reached and `none` when the loop exited because `_running` was false. -/
def enqueueLoop (clock : Nat → Int) : Nat → Nat → AnimatorState →
    Option (AnimatorState × Option Int)
  | _, 0, _ => none
  | k, fuel + 1, s =>
    if s.running then
      match s.frames.get? s.frameIndex with
      | none => none
      | some frame =>
        let delta := clock k - s.lastTime
        let compensation := s.delayCompensation + delta
        let frameDelay : Int := (frame.delay : Int) * 10
        let actualDelay := frameDelay - compensation
        let s2 := { s with lastTime := s.lastTime + delta,
                           delayCompensation := compensation - frameDelay }
        if actualDelay < 0 then
          enqueueLoop clock (k + 1) fuel (advanceFrame s2)
        else
          some (s2, some actualDelay)
    else
      some (s, none)

/-- Source `Animator._enqueueNextFrame`: one `_advanceFrame`, then the catch-up
loop. -/
def enqueueNextFrame (clock : Nat → Int) (fuel : Nat) (s : AnimatorState) :
    Option (AnimatorState × Option Int) :=
  enqueueLoop clock 0 fuel (advanceFrame s)

/-- Result of one tick (`_nextFrameRender`): the frame indices handed to the
render callback, and `some (s, d?)` for the exit state and optional
`setTimeout` delay (`none` on fuel exhaustion inside the loop). -/
structure TickResult where
  rendered : List Nat
  outcome : Option (AnimatorState × Option Int)
deriving Repr, DecidableEq

/-- Source `Animator._nextFrameRender`: if `_running` is false, return at once
(no render, nothing scheduled); otherwise render the frame at `_frameIndex`
via the `onFrame` callback and run `_enqueueNextFrame`. -/
def nextFrameRender (clock : Nat → Int) (fuel : Nat) (s : AnimatorState) :
    TickResult :=
  if s.running then
    { rendered := [s.frameIndex], outcome := enqueueNextFrame clock fuel s }
  else
    { rendered := [], outcome := some (s, none) }

/-- Run the chain of scheduled ticks for at most `ticks` ticks, collecting
every rendered frame index, until the animation is no longer running.
Returns `none` when `ticks` or the per-tick loop fuel runs out first. -/
def runTicks (clock : Nat → Int) (fuel : Nat) :
    Nat → AnimatorState → Option (AnimatorState × List Nat)
  | 0, s => if s.running then none else some (s, [])
  | ticks + 1, s =>
    if s.running then
      let r := nextFrameRender clock fuel s
      match r.outcome with
      | none => none
      | some (s1, _) =>
        match runTicks clock fuel ticks s1 with
        | none => none
        | some (sf, rest) => some (sf, r.rendered ++ rest)
    else
      some (s, [])

/-- Case analysis of `Animator._advanceFrame`: plain step, auto-stop on loop
exhaustion (which leaves `_frameIndex` at `_frames.length`), or wrap. -/
theorem advanceFrame_cases (s : AnimatorState) :
    (s.frameIndex + 1 < s.frames.length ∧
      advanceFrame s = { s with frameIndex := s.frameIndex + 1 }) ∨
    (s.frameIndex + 1 ≥ s.frames.length ∧ s.loopCount ≠ 0 ∧ s.loopCount = s.loops ∧
      advanceFrame s = { s with frameIndex := s.frameIndex + 1, running := false }) ∨
    (s.frameIndex + 1 ≥ s.frames.length ∧ ¬(s.loopCount ≠ 0 ∧ s.loopCount = s.loops) ∧
      advanceFrame s = { s with frameIndex := 0, loops := s.loops + 1 }) := by
  simp only [advanceFrame, stop]
  split_ifs with h1 h2
  · exact Or.inr (Or.inl ⟨h1, h2.1, h2.2, rfl⟩)
  · exact Or.inr (Or.inr ⟨h1, h2, rfl⟩)
  · exact Or.inl ⟨by omega, rfl⟩

/-- Fact: `_advanceFrame` never changes `_loopCount` or `_frames`. -/
theorem advanceFrame_const (s : AnimatorState) :
    (advanceFrame s).loopCount = s.loopCount ∧ (advanceFrame s).frames = s.frames ∧
    (advanceFrame s).lastTime = s.lastTime ∧
    (advanceFrame s).delayCompensation = s.delayCompensation := by
  rcases advanceFrame_cases s with ⟨_, h⟩ | ⟨_, _, _, h⟩ | ⟨_, _, h⟩ <;> simp [h]

/-- Any delay the catch-up loop hands to `setTimeout` is non-negative:
`setTimeout` is only reached in the branch where `actualDelay < 0` failed. -/
theorem enqueueLoop_delay_nonneg (clock : Nat → Int) :
    ∀ fuel k s s' d, enqueueLoop clock k fuel s = some (s', some d) → 0 ≤ d := by
  intro fuel
  induction fuel with
  | zero => intro k s s' d h; simp [enqueueLoop] at h
  | succ fuel ih =>
    intro k s s' d h
    simp only [enqueueLoop] at h
    by_cases hr : s.running
    · rw [if_pos hr] at h
      rcases hget : s.frames.get? s.frameIndex with _ | frame
      · rw [hget] at h; exact absurd h (by simp)
      · rw [hget] at h
        dsimp only at h
        split_ifs at h with hd
        · exact ih _ _ _ _ h
        · simp only [Option.some.injEq, Prod.mk.injEq] at h
          omega
    · rw [if_neg hr] at h
      simp at h

/-- When the catch-up loop exits without scheduling a timer, the animation
has stopped. -/
theorem enqueueLoop_none_stopped (clock : Nat → Int) :
    ∀ fuel k s s', enqueueLoop clock k fuel s = some (s', none) →
      s'.running = false := by
  intro fuel
  induction fuel with
  | zero => intro k s s' h; simp [enqueueLoop] at h
  | succ fuel ih =>
    intro k s s' h
    simp only [enqueueLoop] at h
    by_cases hr : s.running
    · rw [if_pos hr] at h
      rcases hget : s.frames.get? s.frameIndex with _ | frame
      · rw [hget] at h; exact absurd h (by simp)
      · rw [hget] at h
        dsimp only at h
        split_ifs at h with hd
        · exact ih _ _ _ h
        · simp at h
    · rw [if_neg hr] at h
      simp only [Option.some.injEq, Prod.mk.injEq] at h
      rw [← h.1]
      exact Bool.not_eq_true s.running ▸ hr

/-- The catch-up loop never changes `_loopCount` or `_frames`. -/
theorem enqueueLoop_const (clock : Nat → Int) :
    ∀ fuel k s s' out, enqueueLoop clock k fuel s = some (s', out) →
      s'.loopCount = s.loopCount ∧ s'.frames = s.frames := by
  intro fuel
  induction fuel with
  | zero => intro k s s' out h; simp [enqueueLoop] at h
  | succ fuel ih =>
    intro k s s' out h
    simp only [enqueueLoop] at h
    by_cases hr : s.running
    · rw [if_pos hr] at h
      rcases hget : s.frames.get? s.frameIndex with _ | frame
      · rw [hget] at h; exact absurd h (by simp)
      · rw [hget] at h
        dsimp only at h
        split_ifs at h with hd
        · have h2 := ih _ _ _ _ h
          have h3 := advanceFrame_const
            { s with lastTime := s.lastTime + (clock k - s.lastTime),
                     delayCompensation :=
                       s.delayCompensation + (clock k - s.lastTime) -
                         (frame.delay : Int) * 10 }
          exact ⟨by rw [h2.1, h3.1], by rw [h2.2, h3.2.1]⟩
        · simp only [Option.some.injEq, Prod.mk.injEq] at h
          rw [← h.1]
          exact ⟨rfl, rfl⟩
    · rw [if_neg hr] at h
      simp only [Option.some.injEq, Prod.mk.injEq] at h
      rw [← h.1]
      exact ⟨rfl, rfl⟩

/-- C2: a tick renders only the single frame it entered with — frames
skipped by the catch-up loop are advanced over without rendering — and any
delay passed to `setTimeout` when scheduling the next tick is
non-negative. -/
theorem tick_schedules_nonneg (clock : Nat → Int) (fuel : Nat) (s s' : AnimatorState)
    (d : Int) (h : (nextFrameRender clock fuel s).outcome = some (s', some d)) :
    0 ≤ d ∧ (nextFrameRender clock fuel s).rendered = [s.frameIndex] := by
  by_cases hr : s.running
  · refine ⟨?_, by simp [nextFrameRender, hr]⟩
    simp only [nextFrameRender, hr, if_pos] at h
    exact enqueueLoop_delay_nonneg clock fuel 0 (advanceFrame s) s' d h
  · simp [nextFrameRender, hr] at h

/-- Witness for C2 at a concrete input in which the clock jumped 1000 ms
past three 100 ms frames, so the loop actually skips frames. -/
theorem tick_schedules_nonneg_witness :
    (nextFrameRender (fun _ => 1000) 20
        (start 0 (initAnimator 0 [⟨10, 0⟩, ⟨10, 0⟩, ⟨10, 0⟩])).state).outcome =
      some ({ loopCount := 0, frames := [⟨10, 0⟩, ⟨10, 0⟩, ⟨10, 0⟩], loops := 3,
              frameIndex := 1, running := true, lastTime := 1000,
              delayCompensation := 0, disposeFrame := none }, some 0) ∧
    (0 : Int) ≤ 0 ∧
    (nextFrameRender (fun _ => 1000) 20
        (start 0 (initAnimator 0 [⟨10, 0⟩, ⟨10, 0⟩, ⟨10, 0⟩])).state).rendered = [0] := by
  refine ⟨by decide, ?_⟩
  have h := tick_schedules_nonneg (fun _ => 1000) 20
    (start 0 (initAnimator 0 [⟨10, 0⟩, ⟨10, 0⟩, ⟨10, 0⟩])).state
    { loopCount := 0, frames := [⟨10, 0⟩, ⟨10, 0⟩, ⟨10, 0⟩], loops := 3,
      frameIndex := 1, running := true, lastTime := 1000,
      delayCompensation := 0, disposeFrame := none } 0 (by decide)
  exact ⟨h.1, h.2⟩

/-- Fact: `_advanceFrame` cannot stop the animation when `_loopCount = 0`. -/
theorem advanceFrame_running_loopCount_zero (s : AnimatorState)
    (h0 : s.loopCount = 0) : (advanceFrame s).running = s.running := by
  rcases advanceFrame_cases s with ⟨_, h⟩ | ⟨_, hne, _, h⟩ | ⟨_, _, h⟩
  · rw [h]
  · exact absurd h0 hne
  · rw [h]

/-- The catch-up loop cannot stop the animation when `_loopCount = 0`. -/
theorem enqueueLoop_running_loopCount_zero (clock : Nat → Int) :
    ∀ fuel k s s' out, s.loopCount = 0 →
      enqueueLoop clock k fuel s = some (s', out) → s'.running = s.running := by
  intro fuel
  induction fuel with
  | zero => intro k s s' out h0 h; simp [enqueueLoop] at h
  | succ fuel ih =>
    intro k s s' out h0 h
    simp only [enqueueLoop] at h
    by_cases hr : s.running
    · rw [if_pos hr] at h
      rcases hget : s.frames.get? s.frameIndex with _ | frame
      · rw [hget] at h; exact absurd h (by simp)
      · rw [hget] at h
        dsimp only at h
        split_ifs at h with hd
        · set s2 : AnimatorState :=
            { s with lastTime := s.lastTime + (clock k - s.lastTime),
                     delayCompensation :=
                       s.delayCompensation + (clock k - s.lastTime) -
                         (frame.delay : Int) * 10 } with hs2
          have ha : (advanceFrame s2).loopCount = 0 := by
            rw [(advanceFrame_const s2).1]; exact h0
          have := ih _ _ _ _ ha h
          rw [this, advanceFrame_running_loopCount_zero s2 h0]
        · simp only [Option.some.injEq, Prod.mk.injEq] at h
          rw [← h.1]
    · rw [if_neg hr] at h
      simp only [Option.some.injEq, Prod.mk.injEq] at h
      rw [← h.1]

/-- C4: with `loopLimit = 0` the scheduler never stops by itself: neither a
frame advance nor a whole tick (render plus catch-up loop plus scheduling)
can turn `running` off. -/
theorem loop_zero_never_stops (clock : Nat → Int) (fuel : Nat) (s s' : AnimatorState)
    (out : Option Int) (h0 : s.loopCount = 0) (hr : s.running = true)
    (h : (nextFrameRender clock fuel s).outcome = some (s', out)) :
    s'.running = true ∧ (advanceFrame s).running = true := by
  refine ⟨?_, by rw [advanceFrame_running_loopCount_zero s h0, hr]⟩
  simp only [nextFrameRender, hr, if_pos] at h
  have ha : (advanceFrame s).loopCount = 0 := by
    rw [(advanceFrame_const s).1]; exact h0
  have := enqueueLoop_running_loopCount_zero clock fuel 0 (advanceFrame s) s' out ha h
  rw [this, advanceFrame_running_loopCount_zero s h0, hr]

/-- Witness for C4: one frame, `loopLimit = 0`; the tick wraps the loop
counter and keeps running. -/
theorem loop_zero_never_stops_witness :
    ((start 0 (initAnimator 0 [⟨10, 0⟩])).state.loopCount = 0 ∧
      (start 0 (initAnimator 0 [⟨10, 0⟩])).state.running = true) ∧
    ({ loopCount := 0, frames := [⟨10, 0⟩], loops := 1, frameIndex := 0,
       running := true, lastTime := 0, delayCompensation := -100,
       disposeFrame := none } : AnimatorState).running = true := by
  refine ⟨⟨by decide, by decide⟩, ?_⟩
  exact (loop_zero_never_stops (fun _ => 0) 5 (start 0 (initAnimator 0 [⟨10, 0⟩])).state
    { loopCount := 0, frames := [⟨10, 0⟩], loops := 1, frameIndex := 0,
      running := true, lastTime := 0, delayCompensation := -100,
      disposeFrame := none } (some 100) (by decide) (by decide) (by decide)).1

/-- C5: `stop()` sets `running` to false and changes nothing else; a tick
that fires afterwards sees `running = false` and performs no render, invokes
no hook, leaves the state untouched and schedules nothing. -/
theorem stop_only_clears_running (s : AnimatorState) (clock : Nat → Int) (fuel : Nat) :
    (stop s).state = { s with running := false } ∧
    (stop s).rendered = [] ∧ (stop s).scheduled = [] ∧
    (stop s).state.frameIndex = s.frameIndex ∧ (stop s).state.loops = s.loops ∧
    (stop s).state.lastTime = s.lastTime ∧
    (stop s).state.delayCompensation = s.delayCompensation ∧
    (stop s).state.disposeFrame = s.disposeFrame ∧
    nextFrameRender clock fuel (stop s).state =
      { rendered := [], outcome := some ((stop s).state, none) } ∧
    (∀ T, runTicks clock fuel T (stop s).state = some ((stop s).state, [])) := by
  refine ⟨rfl, rfl, rfl, rfl, rfl, rfl, rfl, rfl, by simp [nextFrameRender, stop], ?_⟩
  intro T
  cases T <;> simp [runTicks, stop]

/-- C6: `start()` sets `running` to true, resets `lastTime` to the current
time and `delayCompensation` to 0, schedules one immediate tick
(`setTimeout` delay 0), renders nothing itself, and leaves `frameIndex` and
`loops` unchanged; hence after `stop()` then `start()`, the next tick
renders the frame at the old `frameIndex`, not frame 0. -/
theorem start_resets_timing (s : AnimatorState) (now : Int) (clock : Nat → Int) (fuel : Nat) :
    (start now s).state =
      { s with running := true, lastTime := now, delayCompensation := 0 } ∧
    (start now s).scheduled = [0] ∧ (start now s).rendered = [] ∧
    (start now s).state.frameIndex = s.frameIndex ∧
    (start now s).state.loops = s.loops ∧
    (start now (stop s).state).state.frameIndex = s.frameIndex ∧
    (nextFrameRender clock fuel (start now (stop s).state).state).rendered =
      [s.frameIndex] := by
  refine ⟨rfl, rfl, rfl, rfl, rfl, rfl, ?_⟩
  simp [nextFrameRender, start, stop]

/-- C7: `reset()` sets `frameIndex` and `loops` to 0, leaves every other
field (`running`, `lastTime`, `delayCompensation`, pending `disposeFrame`,
`loopCount`, `frames`) unchanged, renders nothing and schedules nothing. -/
theorem reset_rewinds_only (s : AnimatorState) :
    (reset s).state.frameIndex = 0 ∧ (reset s).state.loops = 0 ∧
    (reset s).state.running = s.running ∧
    (reset s).state.lastTime = s.lastTime ∧
    (reset s).state.delayCompensation = s.delayCompensation ∧
    (reset s).state.disposeFrame = s.disposeFrame ∧
    (reset s).state.loopCount = s.loopCount ∧
    (reset s).state.frames = s.frames ∧
    (reset s).rendered = [] ∧ (reset s).scheduled = [] := by
  exact ⟨rfl, rfl, rfl, rfl, rfl, rfl, rfl, rfl, rfl, rfl⟩

/-- Frame-index bounds across one `_advanceFrame`: the index stays at most
`frameCount`, is strictly below it while still running, and hits
`frameCount` exactly in the auto-stop step. -/
theorem advanceFrame_frameIndex (s : AnimatorState)
    (h : s.frameIndex < s.frames.length) :
    (advanceFrame s).frameIndex ≤ s.frames.length ∧
    ((advanceFrame s).running = true →
      (advanceFrame s).frameIndex < s.frames.length) ∧
    ((advanceFrame s).running = false → s.running = false ∨
      (advanceFrame s).frameIndex = s.frames.length) := by
  rcases advanceFrame_cases s with ⟨h1, he⟩ | ⟨h1, _, _, he⟩ | ⟨h1, _, he⟩ <;> rw [he]
  · exact ⟨le_of_lt h1, fun _ => h1, fun hf => Or.inl hf⟩
  · refine ⟨?_, ?_, fun _ => Or.inr ?_⟩
    · show s.frameIndex + 1 ≤ s.frames.length
      omega
    · intro hrun
      exact absurd hrun (by simp)
    · show s.frameIndex + 1 = s.frames.length
      omega
  · refine ⟨?_, fun _ => ?_, fun hf => Or.inl hf⟩
    · show 0 ≤ s.frames.length
      omega
    · show 0 < s.frames.length
      omega

/-- The catch-up loop keeps the frame index within bounds. -/
theorem enqueueLoop_frameIndex (clock : Nat → Int) :
    ∀ fuel k s s' out,
      s.frameIndex ≤ s.frames.length →
      (s.running = true → s.frameIndex < s.frames.length) →
      enqueueLoop clock k fuel s = some (s', out) →
      s'.frameIndex ≤ s'.frames.length ∧
      (s'.running = true → s'.frameIndex < s'.frames.length) := by
  intro fuel
  induction fuel with
  | zero => intro k s s' out hle hlt h; simp [enqueueLoop] at h
  | succ fuel ih =>
    intro k s s' out hle hlt h
    simp only [enqueueLoop] at h
    by_cases hr : s.running
    · rw [if_pos hr] at h
      rcases hget : s.frames.get? s.frameIndex with _ | frame
      · rw [hget] at h; exact absurd h (by simp)
      · rw [hget] at h
        dsimp only at h
        split_ifs at h with hd
        · set s2 : AnimatorState :=
            { s with lastTime := s.lastTime + (clock k - s.lastTime),
                     delayCompensation :=
                       s.delayCompensation + (clock k - s.lastTime) -
                         (frame.delay : Int) * 10 } with hs2
          have hfi2 : s2.frameIndex < s2.frames.length := hlt hr
          have hadv := advanceFrame_frameIndex s2 hfi2
          have hc := advanceFrame_const s2
          refine ih _ _ _ _ ?_ ?_ h
          · rw [hc.2.1]; exact hadv.1
          · rw [hc.2.1]; exact hadv.2.1
        · simp only [Option.some.injEq, Prod.mk.injEq] at h
          rw [← h.1]
          exact ⟨hle, hlt⟩
    · rw [if_neg hr] at h
      simp only [Option.some.injEq, Prod.mk.injEq] at h
      rw [← h.1]
      exact ⟨hle, hlt⟩

/-- C3 (amended): after `reset`, `stop`, `start` the frame index is
unchanged or zeroed, and across `_advanceFrame` and a whole tick it stays in
`[0, frameCount]`; it is strictly below `frameCount` whenever the animation
is still running, and it reaches `frameCount` exactly in the auto-stop step
(the original strict invariant `frameIndex < frameCount` fails there). -/
theorem frameIndex_bounds (s : AnimatorState) (clock : Nat → Int) (fuel : Nat) :
    (reset s).state.frameIndex = 0 ∧
    (stop s).state.frameIndex = s.frameIndex ∧
    (∀ now, (start now s).state.frameIndex = s.frameIndex) ∧
    (s.frameIndex < s.frames.length →
      (advanceFrame s).frameIndex ≤ s.frames.length ∧
      ((advanceFrame s).running = true →
        (advanceFrame s).frameIndex < s.frames.length) ∧
      ((advanceFrame s).running = false → s.running = false ∨
        (advanceFrame s).frameIndex = s.frames.length)) ∧
    (∀ s' out, s.frameIndex < s.frames.length →
      (nextFrameRender clock fuel s).outcome = some (s', out) →
      s'.frames = s.frames ∧ s'.frameIndex ≤ s.frames.length ∧
      (s'.running = true → s'.frameIndex < s.frames.length)) := by
  refine ⟨rfl, rfl, fun _ => rfl, advanceFrame_frameIndex s, ?_⟩
  intro s' out hfi h
  by_cases hr : s.running
  · simp only [nextFrameRender, hr, if_pos] at h
    have hadv := advanceFrame_frameIndex s hfi
    have hc := advanceFrame_const s
    have hfr : s'.frames = s.frames := by
      rw [(enqueueLoop_const clock fuel 0 (advanceFrame s) s' out h).2, hc.2.1]
    have hb := enqueueLoop_frameIndex clock fuel 0 (advanceFrame s) s' out
      (by rw [hc.2.1]; exact hadv.1) (by rw [hc.2.1]; exact hadv.2.1) h
    exact ⟨hfr, by rw [← hfr]; exact hb.1, by rw [← hfr]; exact hb.2⟩
  · simp only [Bool.not_eq_true] at hr
    simp only [nextFrameRender, hr, Bool.false_eq_true, if_false, Option.some.injEq,
      Prod.mk.injEq] at h
    obtain ⟨h1, h2⟩ := h
    rw [← h1]
    exact ⟨rfl, le_of_lt hfi, fun hrun => absurd hrun (by simp [hr])⟩

/-- Witness for C3 at a concrete mid-animation state. -/
theorem frameIndex_bounds_witness :
    (0 : Nat) < 2 ∧
    ((advanceFrame (start 0 (initAnimator 1 [⟨10, 0⟩, ⟨10, 0⟩])).state).frameIndex ≤ 2 ∧
      ({ loopCount := 1, frames := [⟨10, 0⟩, ⟨10, 0⟩], loops := 0, frameIndex := 1,
         running := true, lastTime := 0, delayCompensation := -100,
         disposeFrame := none } : AnimatorState).frameIndex ≤ 2) := by
  refine ⟨by decide, ?_, ?_⟩
  · exact ((frameIndex_bounds (start 0 (initAnimator 1 [⟨10, 0⟩, ⟨10, 0⟩])).state
      (fun _ => 0) 2).2.2.2.1 (by decide)).1
  · exact ((frameIndex_bounds (start 0 (initAnimator 1 [⟨10, 0⟩, ⟨10, 0⟩])).state
      (fun _ => 0) 2).2.2.2.2
      { loopCount := 1, frames := [⟨10, 0⟩, ⟨10, 0⟩], loops := 0, frameIndex := 1,
        running := true, lastTime := 0, delayCompensation := -100,
        disposeFrame := none }
      (some 100) (by decide) (by decide)).2.1

/-- Counterexample to C3 as stated: run one frame with `loopLimit = 1` to
auto-stop; the final state has `frameIndex = 1 = frameCount`, so the strict
invariant `frameIndex < frameCount` is violated after the auto-stop step. -/
theorem frameIndex_invariant_cex :
    (runTicks (fun _ => 0) 2 3 (start 0 (initAnimator 1 [⟨10, 0⟩])).state).map
        (fun p => (p.1.frameIndex, p.1.frames.length, p.1.running)) =
      some (1, 1, false) ∧ ¬ ((1 : Nat) < 1) := by
  decide

/-- Well-founded measure for the catch-up loop: remaining permitted loops
times the frame count, plus the frames left in the current pass. -/
def loopMeasure (s : AnimatorState) : Nat :=
  (s.loopCount - s.loops) * s.frames.length + (s.frames.length - s.frameIndex)

theorem measure_arith (lc loops len : Nat) (h : loops < lc) :
    (lc - (loops + 1)) * len + len = (lc - loops) * len := by
  obtain ⟨u, hu⟩ : ∃ u, lc - loops = u + 1 := ⟨lc - loops - 1, by omega⟩
  have h2 : lc - (loops + 1) = u := by omega
  rw [h2, hu]
  ring

/-- With a nonzero loop limit, `_advanceFrame` keeps the loop counter within
the limit. -/
theorem advanceFrame_loops_le (s : AnimatorState) (h0 : s.loopCount ≠ 0)
    (hl : s.loops ≤ s.loopCount) : (advanceFrame s).loops ≤ s.loopCount := by
  rcases advanceFrame_cases s with ⟨_, he⟩ | ⟨_, _, _, he⟩ | ⟨_, hne, he⟩ <;> rw [he]
  · exact hl
  · exact hl
  · show s.loops + 1 ≤ s.loopCount
    have : s.loopCount ≠ s.loops := fun hh => hne ⟨h0, hh⟩
    omega

/-- With a nonzero loop limit, `_advanceFrame` strictly decreases
`loopMeasure` (by exactly one position, also in the auto-stop step). -/
theorem advanceFrame_measure (s : AnimatorState) (h0 : s.loopCount ≠ 0)
    (hl : s.loops ≤ s.loopCount) (hfi : s.frameIndex < s.frames.length) :
    loopMeasure (advanceFrame s) + 1 = loopMeasure s := by
  rcases advanceFrame_cases s with ⟨h1, he⟩ | ⟨h1, _, _, he⟩ | ⟨h1, hne, he⟩ <;> rw [he]
  · show (s.loopCount - s.loops) * s.frames.length +
        (s.frames.length - (s.frameIndex + 1)) + 1 =
      (s.loopCount - s.loops) * s.frames.length + (s.frames.length - s.frameIndex)
    omega
  · show (s.loopCount - s.loops) * s.frames.length +
        (s.frames.length - (s.frameIndex + 1)) + 1 =
      (s.loopCount - s.loops) * s.frames.length + (s.frames.length - s.frameIndex)
    omega
  · show (s.loopCount - (s.loops + 1)) * s.frames.length +
        (s.frames.length - 0) + 1 =
      (s.loopCount - s.loops) * s.frames.length + (s.frames.length - s.frameIndex)
    have hlt : s.loops < s.loopCount := by
      have : s.loopCount ≠ s.loops := fun hh => hne ⟨h0, hh⟩
      omega
    have harith := measure_arith s.loopCount s.loops s.frames.length hlt
    omega

/-- With a nonzero loop limit, fuel `loopMeasure s + 1` makes the catch-up
loop finish. -/
theorem enqueueLoop_terminates (clock : Nat → Int) :
    ∀ m k s, s.loopCount ≠ 0 → s.loops ≤ s.loopCount →
      (s.running = true → s.frameIndex < s.frames.length) →
      loopMeasure s ≤ m →
      ∃ r, enqueueLoop clock k (m + 1) s = some r := by
  intro m
  induction m with
  | zero =>
    intro k s h0 hl hfi hm
    by_cases hr : s.running
    · exfalso
      have hx := hfi hr
      unfold loopMeasure at hm
      omega
    · exact ⟨(s, none), by simp [enqueueLoop, hr]⟩
  | succ m ih =>
    intro k s h0 hl hfi hm
    by_cases hr : s.running
    · rcases hget : s.frames.get? s.frameIndex with _ | frame
      · exfalso
        have h1 := List.get?_eq_none.mp hget
        have h2 := hfi hr
        omega
      · simp only [enqueueLoop, hget]
        rw [if_pos hr]
        by_cases hd : (frame.delay : Int) * 10 -
            (s.delayCompensation + (clock k - s.lastTime)) < 0
        · rw [if_pos hd]
          set s2 : AnimatorState :=
            { s with lastTime := s.lastTime + (clock k - s.lastTime),
                     delayCompensation :=
                       s.delayCompensation + (clock k - s.lastTime) -
                         (frame.delay : Int) * 10 } with hs2
          have hfi2 : s2.frameIndex < s2.frames.length := hfi hr
          have hc := advanceFrame_const s2
          have hm2 : loopMeasure s2 = loopMeasure s := rfl
          have hdec := advanceFrame_measure s2 h0 hl hfi2
          refine ih _ _ ?_ ?_ ?_ ?_
          · rw [hc.1]; exact h0
          · rw [hc.1]; exact advanceFrame_loops_le s2 h0 hl
          · intro hrun
            rw [hc.2.1]
            exact (advanceFrame_frameIndex s2 hfi2).2.1 hrun
          · omega
        · rw [if_neg hd]
          exact ⟨_, rfl⟩
    · exact ⟨(s, none), by simp [enqueueLoop, hr]⟩

/-- C10: with a nonzero loop limit, a single invocation of
`_enqueueNextFrame` terminates — there is enough fuel to finish the catch-up
loop — and it ends either by scheduling exactly one `setTimeout` with a
non-negative delay or with the animation stopped by loop exhaustion. -/
theorem enqueue_next_frame_terminates (clock : Nat → Int) (s : AnimatorState)
    (h0 : s.loopCount ≠ 0) (hl : s.loops ≤ s.loopCount) (hr : s.running = true)
    (hfi : s.frameIndex < s.frames.length) :
    ∃ fuel s' out, enqueueNextFrame clock fuel s = some (s', out) ∧
      ((∃ d, out = some d ∧ 0 ≤ d) ∨ (out = none ∧ s'.running = false)) := by
  have hc := advanceFrame_const s
  obtain ⟨⟨s', out⟩, hrun⟩ := enqueueLoop_terminates clock
    (loopMeasure (advanceFrame s)) 0 (advanceFrame s)
    (by rw [hc.1]; exact h0)
    (by rw [hc.1]; exact advanceFrame_loops_le s h0 hl)
    (by intro hrun; rw [hc.2.1]; exact (advanceFrame_frameIndex s hfi).2.1 hrun)
    (le_refl _)
  refine ⟨loopMeasure (advanceFrame s) + 1, s', out, hrun, ?_⟩
  cases out with
  | some d =>
    exact Or.inl ⟨d, rfl, enqueueLoop_delay_nonneg clock _ 0 (advanceFrame s) s' d hrun⟩
  | none =>
    exact Or.inr ⟨rfl, enqueueLoop_none_stopped clock _ 0 (advanceFrame s) s' hrun⟩

/-- Witness for C10: a started single-frame animation with `loopLimit = 1`. -/
theorem enqueue_next_frame_terminates_witness :
    ((start 0 (initAnimator 1 [⟨10, 0⟩])).state.loopCount ≠ 0 ∧
      (start 0 (initAnimator 1 [⟨10, 0⟩])).state.loops ≤ 1 ∧
      (start 0 (initAnimator 1 [⟨10, 0⟩])).state.running = true ∧
      (start 0 (initAnimator 1 [⟨10, 0⟩])).state.frameIndex < 1) ∧
    (∃ fuel s' out,
      enqueueNextFrame (fun _ => 0) fuel (start 0 (initAnimator 1 [⟨10, 0⟩])).state =
        some (s', out) ∧
      ((∃ d, out = some d ∧ 0 ≤ d) ∨ (out = none ∧ s'.running = false))) := by
  refine ⟨⟨by decide, by decide, by decide, by decide⟩, ?_⟩
  exact enqueue_next_frame_terminates (fun _ => 0)
    (start 0 (initAnimator 1 [⟨10, 0⟩])).state
    (by decide) (by decide) (by decide) (by decide)

/-- Invariant of a run under the constant clock 0: running, clock bookkeeping
at 0 with non-positive compensation debt, loop counter within the limit,
frame index in range. -/
def RunInv (s : AnimatorState) : Prop :=
  s.running = true ∧ s.lastTime = 0 ∧ s.delayCompensation ≤ 0 ∧
  s.loops ≤ s.loopCount ∧ s.frameIndex < s.frames.length

/-- One iteration of the catch-up loop on a running state whose accumulated
compensation is non-positive: no skip happens and `setTimeout` is called with
the drift-compensated delay. -/
theorem enqueueLoop_one_step (clock : Nat → Int) (k fuel : Nat) (s : AnimatorState)
    (frame : Frame) (hr : s.running = true)
    (hget : s.frames.get? s.frameIndex = some frame)
    (hdc : s.delayCompensation + (clock k - s.lastTime) ≤ 0) :
    enqueueLoop clock k (fuel + 1) s =
      some ({ s with lastTime := s.lastTime + (clock k - s.lastTime),
                     delayCompensation :=
                       s.delayCompensation + (clock k - s.lastTime) -
                         (frame.delay : Int) * 10 },
            some ((frame.delay : Int) * 10 -
              (s.delayCompensation + (clock k - s.lastTime)))) := by
  have hd : ¬ ((frame.delay : Int) * 10 -
      (s.delayCompensation + (clock k - s.lastTime)) < 0) := by
    omega
  simp only [enqueueLoop, hget]
  rw [if_pos hr, if_neg hd]

/-- A stopped animation absorbs any number of remaining ticks. -/
theorem runTicks_stopped (clock : Nat → Int) (fuel : Nat) :
    ∀ T s, s.running = false → runTicks clock fuel T s = some (s, []) := by
  intro T s h
  cases T <;> simp [runTicks, h]

/-- One whole tick under the constant clock 0, starting from `RunInv`:
the entry frame is rendered, and either the invariant is re-established with
`loopMeasure` decreased by one, or (at the last frame of the last permitted
pass) the scheduler auto-stops with `loops = loopLimit`. -/
theorem tick_step (s : AnimatorState) (h : RunInv s) (h0 : s.loopCount ≠ 0) :
    ∃ s1 out, (nextFrameRender (fun _ => 0) 1 s).outcome = some (s1, out) ∧
      (nextFrameRender (fun _ => 0) 1 s).rendered = [s.frameIndex] ∧
      s1.loopCount = s.loopCount ∧
      ((RunInv s1 ∧ loopMeasure s1 + 1 = loopMeasure s) ∨
       (s1.running = false ∧ s1.loops = s.loopCount ∧ loopMeasure s = 1)) := by
  obtain ⟨hr, ht, hdc, hl, hfi⟩ := h
  have houtcome : (nextFrameRender (fun _ => 0) 1 s).outcome =
      enqueueLoop (fun _ => 0) 0 1 (advanceFrame s) := by
    simp [nextFrameRender, hr, enqueueNextFrame]
  have hrend : (nextFrameRender (fun _ => 0) 1 s).rendered = [s.frameIndex] := by
    simp [nextFrameRender, hr]
  have hmdec := advanceFrame_measure s h0 hl hfi
  have hc := advanceFrame_const s
  rcases advanceFrame_cases s with ⟨h1, he⟩ | ⟨h1, _, heq, he⟩ | ⟨h1, hne, he⟩
  · -- plain step: still running, render scheduled
    have hr1 : (advanceFrame s).running = true := by rw [he]; exact hr
    have hfi1 : (advanceFrame s).frameIndex < (advanceFrame s).frames.length := by
      rw [he]; exact h1
    rcases hget : (advanceFrame s).frames.get? (advanceFrame s).frameIndex
      with _ | frame
    · exfalso
      have := List.get?_eq_none.mp hget
      omega
    · have hdc1 : (advanceFrame s).delayCompensation +
          ((fun _ : Nat => (0 : Int)) 0 - (advanceFrame s).lastTime) ≤ 0 := by
        rw [hc.2.2.1, hc.2.2.2, ht]
        simpa using hdc
      have hone := enqueueLoop_one_step (fun _ => 0) 0 0 (advanceFrame s)
        frame hr1 hget hdc1
      rw [houtcome, hone]
      refine ⟨_, _, rfl, hrend, by rw [hc.1], Or.inl ⟨⟨hr1, ?_, ?_, ?_, ?_⟩, ?_⟩⟩
      · show (advanceFrame s).lastTime + ((0 : Int) - (advanceFrame s).lastTime) = 0
        ring
      · show (advanceFrame s).delayCompensation +
            ((0 : Int) - (advanceFrame s).lastTime) - (frame.delay : Int) * 10 ≤ 0
        rw [hc.2.2.1, hc.2.2.2, ht]
        have : (0 : Int) ≤ (frame.delay : Int) * 10 := by positivity
        omega
      · show (advanceFrame s).loops ≤ (advanceFrame s).loopCount
        rw [hc.1, he]
        exact hl
      · exact hfi1
      · exact hmdec
  · -- auto-stop: the loop exits without scheduling
    have hr1 : (advanceFrame s).running = false := by rw [he]
    rw [houtcome]
    rw [show enqueueLoop (fun _ => 0) 0 1 (advanceFrame s) =
        some (advanceFrame s, none) by simp [enqueueLoop, hr1]]
    refine ⟨_, _, rfl, hrend, hc.1, Or.inr ⟨hr1, by rw [he]; exact heq.symm, ?_⟩⟩
    unfold loopMeasure
    have hfi1 : s.frameIndex + 1 = s.frames.length := by omega
    rw [heq]
    simp
    omega
  · -- wrap: still running at frame 0 of the next pass
    have hr1 : (advanceFrame s).running = true := by rw [he]; exact hr
    have hfi1 : (advanceFrame s).frameIndex < (advanceFrame s).frames.length := by
      rw [he]
      show 0 < s.frames.length
      omega
    rcases hget : (advanceFrame s).frames.get? (advanceFrame s).frameIndex
      with _ | frame
    · exfalso
      have := List.get?_eq_none.mp hget
      omega
    · have hdc1 : (advanceFrame s).delayCompensation +
          ((fun _ : Nat => (0 : Int)) 0 - (advanceFrame s).lastTime) ≤ 0 := by
        rw [hc.2.2.1, hc.2.2.2, ht]
        simpa using hdc
      have hone := enqueueLoop_one_step (fun _ => 0) 0 0 (advanceFrame s)
        frame hr1 hget hdc1
      rw [houtcome, hone]
      refine ⟨_, _, rfl, hrend, by rw [hc.1], Or.inl ⟨⟨hr1, ?_, ?_, ?_, ?_⟩, ?_⟩⟩
      · show (advanceFrame s).lastTime + ((0 : Int) - (advanceFrame s).lastTime) = 0
        ring
      · show (advanceFrame s).delayCompensation +
            ((0 : Int) - (advanceFrame s).lastTime) - (frame.delay : Int) * 10 ≤ 0
        rw [hc.2.2.1, hc.2.2.2, ht]
        have : (0 : Int) ≤ (frame.delay : Int) * 10 := by positivity
        omega
      · show (advanceFrame s).loops ≤ (advanceFrame s).loopCount
        rw [hc.1]
        exact advanceFrame_loops_le s h0 hl
      · exact hfi1
      · exact hmdec

/-- Under the constant clock 0 and a nonzero loop limit, a run from any
`RunInv` state renders exactly `loopMeasure` further frames and then
auto-stops with `loops = loopLimit`. -/
theorem runTicks_count :
    ∀ T s, RunInv s → s.loopCount ≠ 0 → loopMeasure s ≤ T →
      ∃ sf rs, runTicks (fun _ => 0) 1 T s = some (sf, rs) ∧
        rs.length = loopMeasure s ∧ sf.running = false ∧ sf.loops = s.loopCount := by
  intro T
  induction T with
  | zero =>
    intro s h h0 hm
    exfalso
    obtain ⟨hr, _, _, _, hfi⟩ := h
    unfold loopMeasure at hm
    omega
  | succ T ih =>
    intro s h h0 hm
    obtain ⟨s1, out, hout, hrend, hlc, hcase⟩ := tick_step s h h0
    have hr := h.1
    rcases hcase with ⟨hinv1, hdec⟩ | ⟨hstop, hloops, hone⟩
    · obtain ⟨sf, rs, hrun1, hlen, hsf, hsl⟩ :=
        ih s1 hinv1 (by rw [hlc]; exact h0) (by omega)
      refine ⟨sf, s.frameIndex :: rs, ?_, ?_, hsf, by rw [hsl, hlc]⟩
      · simp only [runTicks, hr, if_true, hout, hrun1, hrend]
        simp
      · simp only [List.length_cons, hlen]
        omega
    · refine ⟨s1, [s.frameIndex], ?_, by simp [hone], hstop, hloops⟩
      simp only [runTicks, hr, if_true, hout,
        runTicks_stopped (fun _ => 0) 1 T s1 hstop, hrend]
      simp

/-- C1 (amended): with `loopLimit = k > 0` and non-negative computed delays,
the scheduler renders `k + 1` full passes — `(k + 1) * frameCount` renders,
one more pass than the claim's `k` — before auto-stopping; `loopsCompleted`
does equal `k` at the moment of stopping and `running()` is false
afterwards.  In particular 3 frames with `loopLimit = 1` give 6 renders,
not 3. -/
theorem loop_limit_renders (k : Nat) (frames : List Frame) (hk : k ≠ 0)
    (hn : 0 < frames.length) :
    ∃ sf rs, runTicks (fun _ => 0) 1 ((k + 1) * frames.length)
        (start 0 (initAnimator k frames)).state = some (sf, rs) ∧
      rs.length = (k + 1) * frames.length ∧
      sf.running = false ∧ sf.loops = k := by
  have h : RunInv (start 0 (initAnimator k frames)).state :=
    ⟨rfl, rfl, le_refl 0, Nat.zero_le k, hn⟩
  have hm : loopMeasure (start 0 (initAnimator k frames)).state =
      (k + 1) * frames.length := by
    show (k - 0) * frames.length + (frames.length - 0) = (k + 1) * frames.length
    rw [Nat.sub_zero, Nat.sub_zero, Nat.succ_mul]
  obtain ⟨sf, rs, hrun, hlen, hsf, hsl⟩ :=
    runTicks_count ((k + 1) * frames.length) (start 0 (initAnimator k frames)).state
      h hk (le_of_eq hm)
  exact ⟨sf, rs, hrun, by rw [hlen, hm], hsf, hsl⟩

/-- Witness for C1 (amended) at `k = 1` with the spec's three 10-hundredth
frames. -/
theorem loop_limit_renders_witness :
    (1 : Nat) ≠ 0 ∧ 0 < ([⟨10, 0⟩, ⟨10, 0⟩, ⟨10, 0⟩] : List Frame).length ∧
    (∃ sf rs, runTicks (fun _ => 0) 1
        ((1 + 1) * ([⟨10, 0⟩, ⟨10, 0⟩, ⟨10, 0⟩] : List Frame).length)
        (start 0 (initAnimator 1 [⟨10, 0⟩, ⟨10, 0⟩, ⟨10, 0⟩])).state =
          some (sf, rs) ∧
      rs.length = (1 + 1) * ([⟨10, 0⟩, ⟨10, 0⟩, ⟨10, 0⟩] : List Frame).length ∧
      sf.running = false ∧ sf.loops = 1) := by
  exact ⟨by decide, by decide,
    loop_limit_renders 1 [⟨10, 0⟩, ⟨10, 0⟩, ⟨10, 0⟩] (by decide) (by decide)⟩

/-- Counterexample to C1 as stated: 3 frames with delays `[10, 10, 10]` and
`loopLimit = 1` render `[0, 1, 2, 0, 1, 2]` — six renders, two full passes —
before the automatic stop, not the claimed three. -/
theorem loop_limit_renders_cex :
    (runTicks (fun _ => 0) 2 7
        (start 0 (initAnimator 1 [⟨10, 0⟩, ⟨10, 0⟩, ⟨10, 0⟩])).state).map
      (fun p => (p.2, p.1.running, p.1.loops)) =
      some (([0, 1, 2, 0, 1, 2] : List Nat), false, 1) ∧
    ¬ (([0, 1, 2, 0, 1, 2] : List Nat).length = 3) := by
  decide

/-! ### The default `onFrame` hook of `animateInCanvas` (disposal bookkeeping) -/

/-- Observable canvas/context operations performed by the default `onFrame`
hook, in the order the source performs them. -/
inductive CanvasEvent where
  | createBuffer (i : Nat) : CanvasEvent
  | clearRect : CanvasEvent
  | putImageData (snapIdx : Nat) : CanvasEvent
  | getImageData (i : Nat) : CanvasEvent
  | drawImage (i : Nat) : CanvasEvent
deriving Repr, DecidableEq

/-- Events of `if (typeof this.disposeFrame === 'function') this.disposeFrame()`:
running the pending closure, if any. -/
def execDispose : Option DisposeFrame → List CanvasEvent
  | none => []
  | some DisposeFrame.clearAction => [CanvasEvent.clearRect]
  | some (DisposeFrame.restoreAction j) => [CanvasEvent.putImageData j]

/-- One call of the default `onFrame(frame, i)` hook installed by
`animateInCanvas`: lazily create the frame's buffer canvas, run the pending
`disposeFrame` closure, install the new closure according to
`frame.disposal` (capturing a `getImageData` snapshot for code 3), then draw
the frame (default `onDrawFrame`).  Returns the updated set of frames that
own a buffer, the new pending closure, and the emitted events in order. -/
def onFrameStep (frame : Frame) (i : Nat) (buffered : List Nat)
    (pending : Option DisposeFrame) :
    List Nat × Option DisposeFrame × List CanvasEvent :=
  let bufEvents : List CanvasEvent :=
    if i ∈ buffered then [] else [CanvasEvent.createBuffer i]
  let buffered1 := if i ∈ buffered then buffered else buffered ++ [i]
  let execEvents : List CanvasEvent :=
    match pending with
    | none => []
    | some DisposeFrame.clearAction => [CanvasEvent.clearRect]
    | some (DisposeFrame.restoreAction j) => [CanvasEvent.putImageData j]
  if frame.disposal = 2 then
    (buffered1, some DisposeFrame.clearAction,
      bufEvents ++ execEvents ++ [CanvasEvent.drawImage i])
  else if frame.disposal = 3 then
    (buffered1, some (DisposeFrame.restoreAction i),
      bufEvents ++ execEvents ++
        [CanvasEvent.getImageData i, CanvasEvent.drawImage i])
  else
    (buffered1, none, bufEvents ++ execEvents ++ [CanvasEvent.drawImage i])

/-- The closure the `switch (frame.disposal)` statement leaves in
`this.disposeFrame` after processing frame `i`. -/
def installedDispose (disposal i : Nat) : Option DisposeFrame :=
  if disposal = 2 then some DisposeFrame.clearAction
  else if disposal = 3 then some (DisposeFrame.restoreAction i)
  else none

/-- The snapshot capture the switch performs for frame `i`
(`saved = ctx.getImageData(...)`, only for disposal code 3). -/
def captureEvents (disposal i : Nat) : List CanvasEvent :=
  if disposal = 3 then [CanvasEvent.getImageData i] else []

/-- The lazy buffer-creation events for frame `i`. -/
def bufferEvents (i : Nat) (buffered : List Nat) : List CanvasEvent :=
  if i ∈ buffered then [] else [CanvasEvent.createBuffer i]

/-- Normal form of one `onFrameStep` call: the buffer-creation events, then
the execution of the previously pending closure, then the snapshot capture,
then the draw; the new pending closure is the one `frame.disposal`
selects. -/
theorem onFrameStep_eq (f : Frame) (i : Nat) (buffered : List Nat)
    (pending : Option DisposeFrame) :
    onFrameStep f i buffered pending =
      ((if i ∈ buffered then buffered else buffered ++ [i]),
       installedDispose f.disposal i,
       bufferEvents i buffered ++ execDispose pending ++
         captureEvents f.disposal i ++ [CanvasEvent.drawImage i]) := by
  rcases pending with _ | _ | j <;>
    simp only [onFrameStep, installedDispose, captureEvents, bufferEvents,
      execDispose] <;>
    split_ifs <;> simp_all

/-- C8: the hook tracks exactly one pending disposal action (the single
`disposeFrame` field), namely the one determined by the frame most recently
processed; over two consecutively rendered frames `N` (index `i`) and `N+1`,
the combined event trace factors so that the action installed while
processing `N` executes strictly after `drawImage i` and strictly before
`drawImage (i+1)` — never before frame `N` is drawn — and the
restore-previous snapshot of a frame is captured (`getImageData`) before
that same frame is drawn. -/
theorem disposal_contract (fN fN1 : Frame) (i : Nat) (buffered : List Nat)
    (pending : Option DisposeFrame) :
    (onFrameStep fN i buffered pending).2.1 = installedDispose fN.disposal i ∧
    (onFrameStep fN1 (i + 1) (onFrameStep fN i buffered pending).1
        (onFrameStep fN i buffered pending).2.1).2.1 =
      installedDispose fN1.disposal (i + 1) ∧
    (onFrameStep fN i buffered pending).2.2 ++
      (onFrameStep fN1 (i + 1) (onFrameStep fN i buffered pending).1
        (onFrameStep fN i buffered pending).2.1).2.2 =
      bufferEvents i buffered ++ execDispose pending ++
        captureEvents fN.disposal i ++ [CanvasEvent.drawImage i] ++
        (bufferEvents (i + 1) (onFrameStep fN i buffered pending).1 ++
          execDispose (installedDispose fN.disposal i) ++
          captureEvents fN1.disposal (i + 1) ++
          [CanvasEvent.drawImage (i + 1)]) := by
  simp [onFrameStep_eq, List.append_assoc]

/-! ### `Decoder` -/

/-- Per-frame metadata returned by the reader's `frameInfo`. -/
structure FrameMeta where
  x : Nat
  y : Nat
  width : Nat
  height : Nat
  delay : Nat
  disposal : Nat
deriving Repr, DecidableEq

/-- A decoded-image reader as `Decoder` consumes it (the omggif `GifReader`):
full-canvas dimensions, frame count, per-frame metadata, and
`decodeAndBlitFrameRGBA`, which writes one frame's pixels into a
caller-supplied RGBA buffer — modelled as a function from the supplied
buffer to the written buffer. -/
structure GifReader where
  width : Nat
  height : Nat
  numFrames : Nat
  frameInfo : Nat → FrameMeta
  decodeAndBlitFrameRGBA : Nat → List Nat → List Nat

/-- A frame record as returned by the decoder: the metadata object with the
`pixels` buffer attached. -/
structure DecodedFrame where
  info : FrameMeta
  pixels : List Nat
deriving Repr, DecidableEq

/-- Source `Decoder.decodeFrame`: take frame `frameIndex`'s metadata, allocate a
fresh zero RGBA buffer of full-canvas size
(`new Uint8ClampedArray(reader.width * reader.height * 4)`), and let the
reader decode-and-blit the frame into it. -/
def decodeFrame (reader : GifReader) (frameIndex : Nat) : DecodedFrame :=
  { info := reader.frameInfo frameIndex,
    pixels := reader.decodeAndBlitFrameRGBA frameIndex
      (List.replicate (reader.width * reader.height * 4) 0) }

/-- Source `Decoder.decodeFramesSync`: build the index list `[0, ..., numFrames-1]`
(the source's for-loop counts ascending, since `numFrames() ≥ 0`) and map
`decodeFrame` over it. -/
def decodeFramesSync (reader : GifReader) : List DecodedFrame :=
  (List.range reader.numFrames).map (fun frameIndex => decodeFrame reader frameIndex)

/-- C9: `decodeFramesSync` returns exactly `numFrames` frame records in
ascending index order — the `j`-th record is the decode of frame `j`,
carrying frame `j`'s metadata and the buffer obtained by letting the reader
decode frame `j` into a fresh zero buffer of full-canvas size
`width * height * 4`; and since the reader writes in place (preserves the
buffer's length), every returned pixel buffer has size
`width * height * 4`. -/
theorem decodeFramesSync_spec (reader : GifReader)
    (hblit : ∀ j buf, (reader.decodeAndBlitFrameRGBA j buf).length = buf.length) :
    (decodeFramesSync reader).length = reader.numFrames ∧
    (∀ j, j < reader.numFrames →
      (decodeFramesSync reader).get? j = some (decodeFrame reader j)) ∧
    (∀ j, (decodeFrame reader j).info = reader.frameInfo j ∧
      (decodeFrame reader j).pixels =
        reader.decodeAndBlitFrameRGBA j
          (List.replicate (reader.width * reader.height * 4) 0) ∧
      (decodeFrame reader j).pixels.length =
        reader.width * reader.height * 4) := by
  refine ⟨by simp [decodeFramesSync], ?_, ?_⟩
  · intro j hj
    simp [decodeFramesSync, List.get?_eq_getElem?, List.getElem?_map,
      List.getElem?_range hj]
  · intro j
    refine ⟨rfl, rfl, ?_⟩
    show (reader.decodeAndBlitFrameRGBA j
      (List.replicate (reader.width * reader.height * 4) 0)).length =
        reader.width * reader.height * 4
    rw [hblit]
    exact List.length_replicate _ _

/-- A small concrete reader used to witness C9: 2 × 1 canvas, two frames,
the blit writing the frame index into every byte. -/
def sampleReader : GifReader :=
  { width := 2, height := 1, numFrames := 2,
    frameInfo := fun j => { x := 0, y := 0, width := 2, height := 1,
                            delay := 10, disposal := j },
    decodeAndBlitFrameRGBA := fun j buf => buf.map (fun _ => j + 1) }

/-- Witness for C9 on `sampleReader`. -/
theorem decodeFramesSync_spec_witness :
    (∀ j buf, (sampleReader.decodeAndBlitFrameRGBA j buf).length = buf.length) ∧
    (decodeFramesSync sampleReader).length = sampleReader.numFrames ∧
    (decodeFramesSync sampleReader).get? 0 = some (decodeFrame sampleReader 0) := by
  have hblit : ∀ j buf,
      (sampleReader.decodeAndBlitFrameRGBA j buf).length = buf.length := by
    intro j buf
    simp [sampleReader]
  have h := decodeFramesSync_spec sampleReader hblit
  exact ⟨hblit, h.1, h.2.1 0 (by decide)⟩

end ThinGifler
